import Mathlib

/-!
Verification of the flask-rest-jsonapi query-string parser and schema
projection engine, shallowly embedded from the Python sources
`flask_rest_jsonapi/querystring.py` and `flask_rest_jsonapi/schema.py`.

Modelling conventions:
* A raw query string (`request.args`, a Python `dict`) is an association
  list `List (String × String)` in insertion order (Python 3.7+ dicts
  iterate in insertion order); keys are assumed distinct as in a dict.
* Python exceptions raised by the parser become the `Err` inductive.
  `BadRequest(detail, source={'parameter': p})` is `Err.badRequest detail p`
  (`MalformedQuery` in the specification's taxonomy), `InvalidInclude`
  is `Err.invalidInclude`.  A `TypeError` escaping an
  `except ValueError` handler is `Err.typeError`.
* Python string primitives (`str.split`, `str.index`, slicing,
  `str.startswith`, `int(...)`) are re-implemented on `List Char` so that
  every definition evaluates by `rfl`/`decide`.
-/

set_option autoImplicit false

namespace FlaskRestJsonapi

/-- `leadsBy pre l` is true when the list `pre` is an initial run of `l`
(used to model Python's `str.startswith`). -/
def leadsBy : List Char → List Char → Bool
  | [], _ => true
  | _ :: _, [] => false
  | a :: as, b :: bs => a == b && leadsBy as bs

/-- Python `s.startswith(pre)`. -/
def pyStartsWith (s pre : String) : Bool :=
  leadsBy pre.data s.data

/-- Helper for `pySplitChar`: accumulates the current chunk (reversed). -/
def splitOnCharAux (c : Char) : List Char → List Char → List String
  | [], acc => [String.mk acc.reverse]
  | x :: xs, acc =>
    if x == c then String.mk acc.reverse :: splitOnCharAux c xs []
    else splitOnCharAux c xs (x :: acc)

/-- Python `s.split(c)` for a single-character separator `c`
(`"".split(c) = [""]`, `"a,".split(",") = ["a", ""]`). -/
def pySplitChar (s : String) (c : Char) : List String :=
  splitOnCharAux c s.data []

/-- One-character string (Python iteration over a string yields such). -/
def charStr (c : Char) : String := String.mk [c]

/-- The ASCII whitespace characters stripped by Python `int(str)`
(the unicode spaces Python also strips never occur in these claims). -/
def isPySpace (c : Char) : Bool :=
  c == ' ' || c == '\t' || c == '\n' || c == '\r' || c == '\x0b' || c == '\x0c'

/-- Digit run of Python's integer literal syntax, continuing after the
first digit: single underscores are allowed only between digits. -/
def pyDigitsAux : Nat → List Char → Option Nat
  | acc, [] => some acc
  | acc, c :: rest =>
    if c.isDigit then pyDigitsAux (acc * 10 + (c.toNat - 48)) rest
    else if c == '_' then
      match rest with
      | d :: rest2 =>
        if d.isDigit then pyDigitsAux (acc * 10 + (d.toNat - 48)) rest2 else none
      | [] => none
    else none

/-- A nonempty digit run (first character must be a digit). -/
def pyDigits? : List Char → Option Nat
  | [] => none
  | c :: rest => if c.isDigit then pyDigitsAux (c.toNat - 48) rest else none

/-- Python `int(s)` on a string: surrounding whitespace stripped, optional
sign, then a nonempty digit run; `none` models the `ValueError`. -/
def pyIntOfString? (s : String) : Option Int :=
  let t := ((s.data.dropWhile isPySpace).reverse.dropWhile isPySpace).reverse
  match t with
  | '-' :: rest => (pyDigits? rest).map (fun n => -(n : Int))
  | '+' :: rest => (pyDigits? rest).map (fun n => (n : Int))
  | _ => (pyDigits? t).map (fun n => (n : Int))

/-- A parsed query-string value: Python code stores either the raw string
or, when the raw value contains a comma, the list of comma-separated
parts (`querystring.py` lines 51–54). -/
inductive PyVal where
  | str (s : String)
  | list (l : List String)
deriving DecidableEq, Repr

/-- The exceptions this core can raise.  `badRequest` carries the
`detail` message and the `source={'parameter': …}` value. -/
inductive Err where
  | badRequest (detail : String) (parameter : String)
  | invalidInclude (detail : String)
  | typeError
  | keyError
  | registryError
deriving DecidableEq, Repr

/-- Python `d[k] = v` on a dict represented as an ordered association
list: replaces in place if the key exists, else appends. -/
def pyDictSet {β : Type} (l : List (String × β)) (k : String) (v : β) :
    List (String × β) :=
  if l.any (fun kv => kv.1 == k) then
    l.map (fun kv => if kv.1 == k then (k, v) else kv)
  else l ++ [(k, v)]

/-- Python `d.get(k)` on an ordered association list. -/
def pyDictGet {β : Type} : List (String × β) → String → Option β
  | [], _ => none
  | kv :: rest, k => if kv.1 == k then some kv.2 else pyDictGet rest k

/-- The comma handling of `_get_key_values`: a value containing a comma
is split into the list of parts, otherwise kept as a single string. -/
def pyRawValue (v : String) : PyVal :=
  if v.data.any (fun c => c == ',') then PyVal.list (pySplitChar v ',') else PyVal.str v

/-- Loop body of `QueryStringManager._get_key_values`
(`querystring.py` lines 42–57): for each raw key starting with `name`,
`key_start = key.index('[') + 1`, `key_end = key.index(']')` (each the
first occurrence in the whole key, `str.index` raising `ValueError` when
absent, caught and re-raised as `BadRequest("Parse error")` naming the
key), `item_key = key[key_start:key_end]` (Python slice: empty when
`key_start > key_end`). -/
def gkvAux (name : String) :
    List (String × String) → List (String × PyVal) → Except Err (List (String × PyVal))
  | [], acc => .ok acc
  | (k, v) :: rest, acc =>
    if pyStartsWith k name then
      match k.data.findIdx? (fun c => c == '['), k.data.findIdx? (fun c => c == ']') with
      | some i, some j =>
        gkvAux name rest (pyDictSet acc (String.mk ((k.data.take j).drop (i + 1))) (pyRawValue v))
      | some _, none => .error (.badRequest "Parse error" k)
      | none, _ => .error (.badRequest "Parse error" k)
    else gkvAux name rest acc

/-- `QueryStringManager._get_key_values(name)` (`querystring.py` 34–59). -/
def _get_key_values (name : String) (qs : List (String × String)) :
    Except Err (List (String × PyVal)) :=
  gkvAux name qs []

/-- The Flask application configuration options this core reads
(`current_app.config.get(...)`).  `none` models an unset option. -/
structure Config where
  ALLOW_DISABLE_PAGINATION : Option Bool := none
  MAX_PAGE_SIZE : Option Int := none
  MAX_INCLUDE_DEPTH : Option Int := none

/-- Validation loop of the `pagination` property (`querystring.py`
115–121): every sub-key must be `number` or `size` (else
`BadRequest(... , source 'page')`); `int(value)` must succeed — for a
string value a failure is a `ValueError` caught as
`BadRequest("Parse error", source 'page[<key>]')`, while for a list
value `int(...)` raises a `TypeError` which the `except ValueError`
does not catch, so it escapes (modelled as `Err.typeError`). -/
def checkPageItems : List (String × PyVal) → Except Err Unit
  | [] => .ok ()
  | (k, v) :: rest =>
    if k == "number" || k == "size" then
      match v with
      | .str s =>
        match pyIntOfString? s with
        | some _ => checkPageItems rest
        | none => .error (.badRequest "Parse error" ("page[" ++ k ++ "]"))
      | .list _ => .error .typeError
    else .error (.badRequest (k ++ " is not a valid parameter of pagination") "page")

/-- `int(...)` applied to an already validated pagination value (the
fallbacks are unreachable after `checkPageItems` succeeded). -/
def pyIntOfVal (v : PyVal) : Int :=
  match v with
  | .str s => (pyIntOfString? s).getD 0
  | .list _ => 0

/-- The `pagination` property (`querystring.py` 94–131): bracket-key
extraction on prefix `page`, sub-key/value validation, then the two
configuration policies — `ALLOW_DISABLE_PAGINATION` (default `True`)
rejecting `int(result.get('size', 1)) == 0`, and `MAX_PAGE_SIZE`
rejecting `int(result['size']) > MAX_PAGE_SIZE` when `size` is present. -/
def pagination (cfg : Config) (qs : List (String × String)) :
    Except Err (List (String × PyVal)) :=
  match _get_key_values "page" qs with
  | .error e => .error e
  | .ok result =>
    match checkPageItems result with
    | .error e => .error e
    | .ok _ =>
      let sizeInt : Int :=
        match pyDictGet result "size" with
        | some v => pyIntOfVal v
        | none => 1
      if cfg.ALLOW_DISABLE_PAGINATION.getD true = false ∧ sizeInt = 0 then
        .error (.badRequest "You are not allowed to disable pagination" "page[size]")
      else
        match cfg.MAX_PAGE_SIZE, pyDictGet result "size" with
        | some m, some v =>
          if pyIntOfVal v > m then
            .error (.badRequest ("Maximum page size is " ++ toString m) "page[size]")
          else .ok result
        | _, _ => .ok result

/-- One entry of the `sorting` result: `{'field': …, 'order': …}`. -/
structure SortInfo where
  field : String
  order : String
deriving DecidableEq, Repr

/-- The `sorting` property (`querystring.py` 160–182): if the raw `sort`
parameter is present and truthy (non-empty), split on commas; each token
gets `field = sort_field.replace('-', '')` (which removes every hyphen)
and `order = 'desc' if sort_field.startswith('-') else 'asc'`. -/
def sorting (qs : List (String × String)) : List SortInfo :=
  match pyDictGet qs "sort" with
  | some s =>
    if s ≠ "" then
      (pySplitChar s ',').map (fun tok =>
        { field := String.mk (tok.data.filter (fun c => c != '-')),
          order := if pyStartsWith tok "-" then "desc" else "asc" })
    else []
  | none => []

/-- The `include` property (`querystring.py` 184–198).  Note the source
iterates `for include_path in include_param` over the *raw string*
before any comma split, so each "path" is a single character and
`len(include_path.split('.'))` is `2` for the character `'.'` and `1`
for every other character.  Only afterwards is the string split on
commas and returned (`[]` when the parameter is absent or empty). -/
def includeProp (cfg : Config) (qs : List (String × String)) :
    Except Err (List String) :=
  match pyDictGet qs "include" with
  | none => .ok []
  | some s =>
    match cfg.MAX_INCLUDE_DEPTH with
    | some d =>
      if s.data.any (fun c => ((pySplitChar (charStr c) '.').length : Int) > d) then
        .error (.invalidInclude
          ("You can't use include through more than " ++ toString d ++ " relationships"))
      else .ok (if s ≠ "" then pySplitChar s ',' else [])
    | none => .ok (if s ≠ "" then pySplitChar s ',' else [])

/-- The `fields` property (`querystring.py` 140–158): bracket-key
extraction on prefix `fields`, then every scalar value is wrapped into a
one-element list. -/
def fieldsProp (qs : List (String × String)) :
    Except Err (List (String × List String)) :=
  match _get_key_values "fields" qs with
  | .error e => .error e
  | .ok r =>
    .ok (r.map (fun kv =>
      (kv.1, match kv.2 with | .list l => l | .str s => [s])))

/-! ## Schema model (`schema.py`)

A marshmallow schema class is modelled by its JSON:API essentials: the
class name (used in error messages), `opts.type_`, and the ordered
`_declared_fields` mapping.  A field descriptor records whether the
field is a `Relationship` and, if so, the *name* of the related schema
class (the source resolves a string reference through
`class_registry.get_class`; a direct class reference or a bound schema
instance resolve to the same class, so all three cases collapse to a
name looked up in the registry).  Schema instances deep-copy
`_declared_fields` on construction (marshmallow behaviour), so writes
to a projected schema never reach the registered class descriptor. -/

/-- A field of a declared schema. -/
structure FieldDesc where
  isRelationship : Bool
  related : String := ""
deriving DecidableEq, Repr

/-- A registered schema class. -/
structure SchemaDesc where
  className : String
  type_ : String
  declared_fields : List (String × FieldDesc)
deriving DecidableEq, Repr

/-- The schema constructor keyword arguments `compute_schema` touches.
Python passes `default_kwargs` as a dict and *aliases* it
(`schema_kwargs = default_kwargs`), so every write to `schema_kwargs`
is visible to the caller; `none` models an absent dict entry.  Other
entries (e.g. `many`) are never written by `compute_schema`. -/
structure Kwargs where
  only : Option (List String) := none
  include_data : Option (List String) := none
deriving DecidableEq, Repr

/-- The request-scoped projected schema built by `compute_schema`: the
instance's `opts.type_`, its `only` restriction (`none` = all declared
fields visible), its `include_data` tuple, and the nested projections
substituted into its relationship fields. -/
inductive Projected where
  | mk (type_ : String) (only : Option (List String))
       (include_data : List String) (expanded : List (String × Projected))

/-- `opts.type_` of a projected schema. -/
def Projected.type_ : Projected → String
  | .mk t _ _ _ => t

/-- The `only` attribute of a projected schema. -/
def Projected.only : Projected → Option (List String)
  | .mk _ o _ _ => o

/-- The `include_data` tuple of a projected schema. -/
def Projected.include_data : Projected → List String
  | .mk _ _ i _ => i

/-- The nested projections of a projected schema. -/
def Projected.expanded : Projected → List (String × Projected)
  | .mk _ _ _ e => e

/-- `include_path.split('.')[0]`: the characters before the first dot. -/
def firstSegment (p : String) : String :=
  String.mk (p.data.takeWhile (fun c => c != '.'))

/-- `'.' in include_path`. -/
def hasDot (p : String) : Bool :=
  p.data.any (fun c => c == '.')

/-- `'.'.join(include_path.split('.')[1:])` when the path contains a
dot: for a split on a single-character separator this is exactly the
substring after the first dot. -/
def dropFirstSegment (p : String) : String :=
  String.mk ((p.data.dropWhile (fun c => c != '.')).tail)

/-- Contribution of one include path to `related_includes[f]`
(`schema.py` lines 71–74). -/
def relStep (f : String) (p : String) : Option String :=
  if firstSegment p == f then
    (if hasDot p then some (dropFirstSegment p) else none)
  else none

/-- `related_includes[f]` after the first loop of `compute_schema`:
the dot-suffixes, in order, of the include paths whose first segment
is `f`. -/
def relatedIncludesOf (paths : List String) (f : String) : List String :=
  paths.filterMap (relStep f)

/-- Lines 77–78 of `schema.py` (and again 91–92): if an `only`
restriction is present and lacks `'id'`, append `('id',)`. -/
def pyIdFix (only : Option (List String)) : Option (List String) :=
  match only with
  | some o => if "id" ∈ o then some o else some (o ++ ["id"])
  | none => none

/-- The sparse-fieldsets block of `compute_schema` (`schema.py` 83–92),
for a schema instance whose `only` attribute is `only0`.  The source
computes `tmp_only = set(schema.declared_fields.keys()) &
set(qs.fields[type_])`, optionally `&= set(schema.only)`, and then
`schema.only = tuple(tmp_only)`: a Python `set` of strings is
enumerated in unspecified (hash-dependent) order, which is modelled by
the oracle `enum`, an arbitrary re-ordering of the declared-order
enumeration of that set (see `validEnum`). -/
def sparseOnly (schema_cls : SchemaDesc) (fieldsMap : List (String × List String))
    (only0 : Option (List String)) (enum : List String → List String) :
    Option (List String) :=
  match pyDictGet fieldsMap schema_cls.type_ with
  | none => only0
  | some requested =>
    let tmp0 := (schema_cls.declared_fields.map Prod.fst).filter
      (fun k => requested.contains k)
    let tmp1 :=
      match only0 with
      | some o => if o.isEmpty then tmp0 else tmp0.filter (fun k => o.contains k)
      | none => tmp0
    let t := enum tmp1
    some (if "id" ∈ t then t else t ++ ["id"])

/-- First loop of `compute_schema` (`schema.py` 61–74): validates each
include path's first segment against `_declared_fields` and accumulates
`schema_kwargs['include_data']`.  Returns the loop outcome together
with the `include_data` accumulated so far (the caller's aliased dict
keeps the partial tuple when the loop raises). -/
def includeLoop (schema_cls : SchemaDesc) :
    List String → List String → (Except Err Unit) × List String
  | [], acc => (.ok (), acc)
  | p :: rest, acc =>
    let f := firstSegment p
    match pyDictGet schema_cls.declared_fields f with
    | none =>
      (.error (.invalidInclude (schema_cls.className ++ " has no attribute " ++ f)), acc)
    | some fd =>
      if fd.isRelationship then includeLoop schema_cls rest (acc ++ [f])
      else
        (.error (.invalidInclude
          (f ++ " is not a relationship attribute of " ++ schema_cls.className)), acc)

/-- Termination measure: one plus the character count of a path (a
dot-suffix of a path is at least one character shorter). -/
def pathWeight (p : String) : Nat := p.data.length + 1

/-- Termination measure of an include argument. -/
def includeWeight : Option (List String) → Nat
  | none => 0
  | some l => (l.map pathWeight).sum

/-- `related_includes[field] or None` (`schema.py` line 109). -/
def orNone (l : List String) : Option (List String) :=
  if l.isEmpty then none else some l

mutual

/-- `compute_schema(schema_cls, default_kwargs, qs, include)`
(`schema.py` 44–112).  Returns the projected schema (or the exception)
*and* the final contents of the caller-supplied `default_kwargs` dict:
`schema_kwargs = default_kwargs` aliases it, so
`schema_kwargs['include_data'] = tuple()` (line 56), the `include_data`
appends of the first loop (line 70) and the `only` id-fix (lines 77–78)
all mutate the caller's dict.  `include` is truthy only when it is a
non-empty list (`if include:`); `qs.fields` is re-parsed from the raw
query string on access and can itself raise.  The second loop re-reads
`schema.declared_fields[field]` (instance copy), resolves the related
schema class through the class registry and recursively projects it
with `related_includes[field] or None`, substituting the result into
the relationship field of this (fresh) instance. -/
def compute_schema (registry : List (String × SchemaDesc)) (schema_cls : SchemaDesc)
    (default_kwargs : Kwargs) (qs : List (String × String))
    (inc : Option (List String)) (enum : List String → List String) :
    (Except Err Projected) × Kwargs :=
  match inc with
  | some (p0 :: ps) =>
    match includeLoop schema_cls (p0 :: ps) [] with
    | (.error e, idata) =>
      (.error e, { default_kwargs with include_data := some idata })
    | (.ok _, idata) =>
      let kw : Kwargs := { only := pyIdFix default_kwargs.only, include_data := some idata }
      match fieldsProp qs with
      | .error e => (.error e, kw)
      | .ok fm =>
        let only2 := sparseOnly schema_cls fm kw.only enum
        match expandLoop registry schema_cls qs (p0 :: ps) (List.cons_ne_nil p0 ps)
            (p0 :: ps) [] enum with
        | .error e => (.error e, kw)
        | .ok ex => (.ok (.mk schema_cls.type_ only2 idata ex), kw)
  | _ =>
    let kw : Kwargs := { only := pyIdFix default_kwargs.only, include_data := some [] }
    match fieldsProp qs with
    | .error e => (.error e, kw)
    | .ok fm =>
      (.ok (.mk schema_cls.type_ (sparseOnly schema_cls fm kw.only enum) [] []), kw)
termination_by (includeWeight inc, 2 + (inc.getD []).length)
decreasing_by
  exact Prod.Lex.right _ (by simp only [Option.getD_some]; omega)

/-- The compound-documents loop of `compute_schema` (`schema.py`
95–110), iterating over the include paths of the enclosing call
(`allPs`): `schema.declared_fields[field]` (a `KeyError` would escape
were the field absent — unreachable after the first loop),
`class_registry.get_class` for a string reference (a `RegistryError`
escapes when unregistered), then the recursive projection, overwriting
the relationship field's bound schema (later duplicate fields
overwrite earlier ones, like repeated dict assignment). -/
def expandLoop (registry : List (String × SchemaDesc)) (schema_cls : SchemaDesc)
    (qs : List (String × String)) (allPs : List String) (hne : allPs ≠ [])
    (todo : List String) (acc : List (String × Projected))
    (enum : List String → List String) : Except Err (List (String × Projected)) :=
  match todo with
  | [] => .ok acc
  | p :: rest =>
    let f := firstSegment p
    match pyDictGet schema_cls.declared_fields f with
    | none => .error .keyError
    | some fd =>
      match pyDictGet registry fd.related with
      | none => .error .registryError
      | some relatedDesc =>
        match (compute_schema registry relatedDesc {} qs
            (orNone (relatedIncludesOf allPs f)) enum).1 with
        | .error e => .error e
        | .ok sub =>
          expandLoop registry schema_cls qs allPs hne rest (pyDictSet acc f sub) enum
termination_by (includeWeight (some allPs), 1 + todo.length)
decreasing_by
  · apply Prod.Lex.left
    show includeWeight (orNone (relatedIncludesOf allPs (firstSegment p)))
      < includeWeight (some allPs)
    have hlen : ∀ (pred : Char → Bool) (l : List Char),
        (l.dropWhile pred).length ≤ l.length := by
      intro pred l
      induction l with
      | nil => simp
      | cons a t ih =>
        by_cases h : pred a
        · simp only [List.dropWhile_cons, h, if_true, List.length_cons]
          omega
        · simp [List.dropWhile_cons, h]
    have hdw : ∀ l : List Char, l.any (fun c => c == '.') = true →
        l.dropWhile (fun c => c != '.') ≠ [] := by
      intro l hl
      induction l with
      | nil => simp at hl
      | cons a t ih =>
        by_cases ha : a = '.'
        · simp [List.dropWhile_cons, ha]
        · have h' : '.' ∈ t := by
            rcases (by simpa using hl : a = '.' ∨ '.' ∈ t) with h1 | h1
            · exact absurd h1 ha
            · exact h1
          have ht : t.any (fun c => c == '.') = true := by simpa using h'
          simpa [List.dropWhile_cons, ha] using ih ht
    have hstep : ∀ ff pp qq : String, relStep ff pp = some qq →
        pathWeight qq < pathWeight pp := by
      intro ff pp qq h
      unfold relStep at h
      by_cases h1 : (firstSegment pp == ff) = true
      · rw [if_pos h1] at h
        by_cases h2 : hasDot pp = true
        · rw [if_pos h2] at h
          cases h
          have hnn : pp.data.dropWhile (fun c => c != '.') ≠ [] := hdw pp.data h2
          have hle : (pp.data.dropWhile (fun c => c != '.')).length ≤ pp.data.length :=
            hlen _ _
          have hpos := List.length_pos.2 hnn
          have htl : (dropFirstSegment pp).data.length
              = (pp.data.dropWhile (fun c => c != '.')).length - 1 := by
            simp [dropFirstSegment, List.length_tail]
          unfold pathWeight
          omega
        · rw [if_neg h2] at h
          cases h
      · rw [if_neg h1] at h
        cases h
    have hwle : ∀ (g : String → Option String),
        (∀ pp qq, g pp = some qq → pathWeight qq < pathWeight pp) →
        ∀ l : List String,
          ((l.filterMap g).map pathWeight).sum ≤ (l.map pathWeight).sum := by
      intro g hg l
      induction l with
      | nil => simp
      | cons a t ih =>
        cases hga : g a with
        | none =>
          simp only [List.filterMap_cons, hga, List.map_cons, List.sum_cons]
          omega
        | some q =>
          have := hg a q hga
          simp only [List.filterMap_cons, hga, List.map_cons, List.sum_cons]
          omega
    have hwlt : ∀ (g : String → Option String),
        (∀ pp qq, g pp = some qq → pathWeight qq < pathWeight pp) →
        ∀ l : List String, l.filterMap g ≠ [] →
          ((l.filterMap g).map pathWeight).sum < (l.map pathWeight).sum := by
      intro g hg l
      induction l with
      | nil => intro h; simp at h
      | cons a t ih =>
        intro hne'
        cases hga : g a with
        | none =>
          have ht : t.filterMap g ≠ [] := by
            intro h
            exact hne' (by simp [List.filterMap_cons, hga, h])
          have := ih ht
          simp only [List.filterMap_cons, hga, List.map_cons, List.sum_cons]
          omega
        | some q =>
          have h1 := hg a q hga
          have h2 := hwle g hg t
          simp only [List.filterMap_cons, hga, List.map_cons, List.sum_cons]
          omega
    have hpos : 0 < includeWeight (some allPs) := by
      cases allPs with
      | nil => exact absurd rfl hne
      | cons a t =>
        simp only [includeWeight, List.map_cons, List.sum_cons, pathWeight]
        omega
    by_cases he : (relatedIncludesOf allPs (firstSegment p)).isEmpty = true
    · have ho : orNone (relatedIncludesOf allPs (firstSegment p)) = none := by
        unfold orNone; rw [if_pos he]
      rw [ho]
      exact hpos
    · have ho : orNone (relatedIncludesOf allPs (firstSegment p))
          = some (relatedIncludesOf allPs (firstSegment p)) := by
        unfold orNone; rw [if_neg he]
      rw [ho]
      have hne2 : allPs.filterMap (relStep (firstSegment p)) ≠ [] := by
        intro h
        exact he (by simp [relatedIncludesOf, h])
      show ((relatedIncludesOf allPs (firstSegment p)).map pathWeight).sum
        < (allPs.map pathWeight).sum
      exact hwlt (relStep (firstSegment p))
        (fun pp qq hpq => hstep (firstSegment p) pp qq hpq) allPs hne2
  · exact Prod.Lex.right _ (by simp only [List.length_cons]; omega)

end

/-! ## Auxiliary notions used to state the claims -/

/-- An admissible enumeration oracle for Python set iteration: `enum l`
must list exactly the elements of `l` (each once, `l` itself having no
duplicates at the call sites, since dict keys are distinct), in an
arbitrary order.  Any actual CPython hash order is one such `enum`;
`id` is another. -/
def validEnum (enum : List String → List String) : Prop :=
  ∀ l : List String, (enum l).Perm l

/-- An include path whose first segment is rejected by the validation
loop of `compute_schema`: either absent from `_declared_fields` or not
a `Relationship` field. -/
def badPathB (schema_cls : SchemaDesc) (p : String) : Bool :=
  match pyDictGet schema_cls.declared_fields (firstSegment p) with
  | none => true
  | some fd => !fd.isRelationship

/-- Whether a projection outcome is an `InvalidInclude` exception. -/
def isInvalidIncludeB (r : Except Err Projected) : Bool :=
  match r with
  | .error (.invalidInclude _) => true
  | _ => false

/-- The fields a projected schema serializes (marshmallow semantics:
`only = None` serializes every declared field in declared order, a
tuple restricts to exactly the listed fields). -/
def visibleFields (schema_cls : SchemaDesc) (p : Projected) : List String :=
  match p.only with
  | none => schema_cls.declared_fields.map Prod.fst
  | some o => o

/-- A Flask app with none of the three options configured. -/
def cfgDefault : Config := {}

/-- An ordinary (non-relationship) schema field. -/
def demoAttr : FieldDesc := ⟨false, ""⟩

/-- A relationship field bound (by class name) to a related schema. -/
def demoRel (related : String) : FieldDesc := ⟨true, related⟩

/-- A two-field schema (`id`, `name`) used in concrete runs. -/
def demoSchema : SchemaDesc :=
  ⟨"DemoSchema", "demo", [("id", demoAttr), ("name", demoAttr)]⟩

/-- A schema with a relationship field, used in concrete runs. -/
def articleSchema : SchemaDesc :=
  ⟨"ArticleSchema", "article",
    [("id", demoAttr), ("title", demoAttr), ("author", demoRel "PersonSchema")]⟩

/-- The related schema of `articleSchema`'s `author` relationship. -/
def personSchema : SchemaDesc :=
  ⟨"PersonSchema", "person", [("id", demoAttr), ("name", demoAttr)]⟩

/-- A class registry holding the two demo schemas. -/
def demoRegistry : List (String × SchemaDesc) :=
  [("ArticleSchema", articleSchema), ("PersonSchema", personSchema)]

/-! ## General lemmas about the embedding -/

theorem compute_schema_none (registry : List (String × SchemaDesc)) (s : SchemaDesc)
    (kw : Kwargs) (qs : List (String × String)) (enum : List String → List String) :
    compute_schema registry s kw qs none enum =
      (match fieldsProp qs with
       | .error e => (.error e, { only := pyIdFix kw.only, include_data := some [] })
       | .ok fm =>
         (.ok (.mk s.type_ (sparseOnly s fm (pyIdFix kw.only) enum) [] []),
          { only := pyIdFix kw.only, include_data := some [] })) := by
  rw [compute_schema]
  intro p0 ps h
  cases h

theorem compute_schema_some_nil (registry : List (String × SchemaDesc)) (s : SchemaDesc)
    (kw : Kwargs) (qs : List (String × String)) (enum : List String → List String) :
    compute_schema registry s kw qs (some []) enum =
      (match fieldsProp qs with
       | .error e => (.error e, { only := pyIdFix kw.only, include_data := some [] })
       | .ok fm =>
         (.ok (.mk s.type_ (sparseOnly s fm (pyIdFix kw.only) enum) [] []),
          { only := pyIdFix kw.only, include_data := some [] })) := by
  rw [compute_schema]
  intro p0 ps h
  simp at h

theorem compute_schema_cons (registry : List (String × SchemaDesc)) (s : SchemaDesc)
    (kw : Kwargs) (qs : List (String × String)) (p0 : String) (ps : List String)
    (enum : List String → List String) :
    compute_schema registry s kw qs (some (p0 :: ps)) enum =
      (match includeLoop s (p0 :: ps) [] with
       | (.error e, idata) => (.error e, { kw with include_data := some idata })
       | (.ok _, idata) =>
         match fieldsProp qs with
         | .error e =>
           (.error e, { only := pyIdFix kw.only, include_data := some idata })
         | .ok fm =>
           match expandLoop registry s qs (p0 :: ps) (List.cons_ne_nil p0 ps)
               (p0 :: ps) [] enum with
           | .error e =>
             (.error e, { only := pyIdFix kw.only, include_data := some idata })
           | .ok ex =>
             (.ok (.mk s.type_ (sparseOnly s fm (pyIdFix kw.only) enum) idata ex),
              { only := pyIdFix kw.only, include_data := some idata })) := by
  rw [compute_schema]

theorem includeLoop_nil (s : SchemaDesc) (acc : List String) :
    includeLoop s [] acc = (.ok (), acc) := rfl

theorem includeLoop_cons (s : SchemaDesc) (q : String) (rest acc : List String) :
    includeLoop s (q :: rest) acc =
      match pyDictGet s.declared_fields (firstSegment q) with
      | none =>
        (.error (.invalidInclude (s.className ++ " has no attribute " ++ firstSegment q)),
         acc)
      | some fd =>
        if fd.isRelationship then includeLoop s rest (acc ++ [firstSegment q])
        else
          (.error (.invalidInclude
            (firstSegment q ++ " is not a relationship attribute of " ++ s.className)),
           acc) := rfl

theorem includeLoop_ok_idata (s : SchemaDesc) :
    ∀ (ps acc : List String) (u : Unit) (idata : List String),
      includeLoop s ps acc = (.ok u, idata) → idata = acc ++ ps.map firstSegment := by
  intro ps
  induction ps with
  | nil =>
    intro acc u idata h
    rw [includeLoop_nil] at h
    simp only [Prod.mk.injEq] at h
    simp [← h.2]
  | cons q rest ih =>
    intro acc u idata h
    rw [includeLoop_cons] at h
    split at h
    · simp at h
    · split at h
      · simpa using ih (acc ++ [firstSegment q]) u idata h
      · simp at h

theorem includeLoop_bad (s : SchemaDesc) :
    ∀ (ps acc : List String) (p : String), p ∈ ps → badPathB s p = true →
      ∃ m, (includeLoop s ps acc).1 = .error (.invalidInclude m) := by
  intro ps
  induction ps with
  | nil =>
    intro acc p hp
    simp at hp
  | cons q rest ih =>
    intro acc p hp hbad
    rcases List.mem_cons.mp hp with h1 | h1
    · subst h1
      unfold badPathB at hbad
      rw [includeLoop_cons]
      cases hq : pyDictGet s.declared_fields (firstSegment p) with
      | none => simp
      | some fd =>
        rw [hq] at hbad
        have hrel : fd.isRelationship = false := by simpa using hbad
        simp [hrel]
    · rw [includeLoop_cons]
      cases hq : pyDictGet s.declared_fields (firstSegment q) with
      | none => simp
      | some fd =>
        by_cases hrel : fd.isRelationship = true
        · simpa [hrel] using ih (acc ++ [firstSegment q]) p h1 hbad
        · simp [hrel]

theorem checkPageItems_cons (k : String) (v : PyVal) (rest : List (String × PyVal)) :
    checkPageItems ((k, v) :: rest) =
      (if k == "number" || k == "size" then
        match v with
        | .str s =>
          match pyIntOfString? s with
          | some _ => checkPageItems rest
          | none => .error (.badRequest "Parse error" ("page[" ++ k ++ "]"))
        | .list _ => .error .typeError
      else
        .error (.badRequest (k ++ " is not a valid parameter of pagination") "page")) :=
  rfl

theorem checkPageItems_ok (l : List (String × PyVal)) (h : checkPageItems l = .ok ()) :
    ∀ kv ∈ l, (kv.1 = "number" ∨ kv.1 = "size") ∧
      ∃ s n, kv.2 = PyVal.str s ∧ pyIntOfString? s = some n := by
  induction l with
  | nil =>
    intro kv hkv
    simp at hkv
  | cons a t ih =>
    obtain ⟨k, v⟩ := a
    intro kv hkv
    rw [checkPageItems_cons] at h
    by_cases hk : (k == "number" || k == "size") = true
    · rw [if_pos hk] at h
      cases v with
      | str sv =>
        dsimp only at h
        cases hint : pyIntOfString? sv with
        | none =>
          try rw [hint] at h
          dsimp only at h
          cases h
        | some n =>
          try rw [hint] at h
          dsimp only at h
          rcases List.mem_cons.mp hkv with h1 | h1
          · subst h1
            refine ⟨?_, sv, n, rfl, hint⟩
            rcases Bool.or_eq_true_iff.mp hk with h2 | h2
            · exact Or.inl (by simpa using h2)
            · exact Or.inr (by simpa using h2)
          · exact ih h kv h1
      | list lv =>
        dsimp only at h
        cases h
    · rw [if_neg hk] at h
      cases h

theorem pagination_ok (cfg : Config) (qs : List (String × String))
    (res : List (String × PyVal)) (h : pagination cfg qs = .ok res) :
    _get_key_values "page" qs = .ok res ∧ checkPageItems res = .ok () := by
  unfold pagination at h
  cases hg : _get_key_values "page" qs with
  | error e =>
    try rw [hg] at h
    dsimp only at h
    cases h
  | ok result =>
    try rw [hg] at h
    dsimp only at h
    cases hc : checkPageItems result with
    | error e =>
      try rw [hc] at h
      dsimp only at h
      cases h
    | ok u =>
      cases u
      try rw [hc] at h
      dsimp only at h
      have hres : res = result := by
        split at h
        · cases h
        · split at h
          · split at h
            · cases h
            · exact (Except.ok.inj h).symm
          · exact (Except.ok.inj h).symm
      subst hres
      exact ⟨rfl, hc⟩

theorem expandLoop_nil (registry : List (String × SchemaDesc)) (s : SchemaDesc)
    (qs : List (String × String)) (allPs : List String) (hne : allPs ≠ [])
    (acc : List (String × Projected)) (enum : List String → List String) :
    expandLoop registry s qs allPs hne [] acc enum = .ok acc := by
  rw [expandLoop]

theorem expandLoop_cons (registry : List (String × SchemaDesc)) (s : SchemaDesc)
    (qs : List (String × String)) (allPs : List String) (hne : allPs ≠ [])
    (p : String) (rest : List String) (acc : List (String × Projected))
    (enum : List String → List String) :
    expandLoop registry s qs allPs hne (p :: rest) acc enum =
      (match pyDictGet s.declared_fields (firstSegment p) with
       | none => .error .keyError
       | some fd =>
         match pyDictGet registry fd.related with
         | none => .error .registryError
         | some relatedDesc =>
           match (compute_schema registry relatedDesc {} qs
               (orNone (relatedIncludesOf allPs (firstSegment p))) enum).1 with
           | .error e => .error e
           | .ok sub =>
             expandLoop registry s qs allPs hne rest
               (pyDictSet acc (firstSegment p) sub) enum) := by
  rw [expandLoop]

theorem compute_schema_ok_only (registry : List (String × SchemaDesc)) (s : SchemaDesc)
    (kw : Kwargs) (qs : List (String × String)) (inc : Option (List String))
    (enum : List String → List String) (fm : List (String × List String))
    (p : Projected) (hf : fieldsProp qs = .ok fm)
    (hok : (compute_schema registry s kw qs inc enum).1 = .ok p) :
    p.only = sparseOnly s fm (pyIdFix kw.only) enum := by
  cases inc with
  | none =>
    rw [compute_schema_none] at hok
    rw [hf] at hok
    dsimp only at hok
    rw [← Except.ok.inj hok]
    rfl
  | some ps =>
    cases ps with
    | nil =>
      rw [compute_schema_some_nil] at hok
      rw [hf] at hok
      dsimp only at hok
      rw [← Except.ok.inj hok]
      rfl
    | cons q rest =>
      rw [compute_schema_cons] at hok
      cases hL : includeLoop s (q :: rest) [] with
      | mk r idata =>
        try rw [hL] at hok
        cases r with
        | error e =>
          dsimp only at hok
          cases hok
        | ok u =>
          dsimp only at hok
          rw [hf] at hok
          dsimp only at hok
          cases hE : expandLoop registry s qs (q :: rest) (List.cons_ne_nil q rest)
              (q :: rest) [] enum with
          | error e =>
            try rw [hE] at hok
            dsimp only at hok
            cases hok
          | ok ex =>
            try rw [hE] at hok
            dsimp only at hok
            rw [← Except.ok.inj hok]
            rfl

theorem mem_pyIdFix_some (o : List String) (x : String) :
    (∀ o2, pyIdFix (some o) = some o2 → (x ∈ o2 ↔ x ∈ o ∨ x = "id")) := by
  intro o2 h
  unfold pyIdFix at h
  try dsimp only at h
  by_cases hid : "id" ∈ o
  · rw [if_pos hid] at h
    cases h
    constructor
    · exact Or.inl
    · rintro (hx | rfl)
      · exact hx
      · exact hid
  · rw [if_neg hid] at h
    cases h
    simp

theorem pyIdFix_some_ne_nil (o o2 : List String) (h : pyIdFix (some o) = some o2) :
    o2 ≠ [] := by
  unfold pyIdFix at h
  try dsimp only at h
  by_cases hid : "id" ∈ o
  · rw [if_pos hid] at h
    cases h
    intro hnil
    subst hnil
    simp at hid
  · rw [if_neg hid] at h
    cases h
    simp

theorem contains_true_iff (l : List String) (x : String) :
    l.contains x = true ↔ x ∈ l := by
  induction l with
  | nil => simp
  | cons a t ih =>
    rw [List.contains_cons, Bool.or_eq_true, ih, List.mem_cons, beq_iff_eq]

theorem sparseOnly_spec (s : SchemaDesc) (fm : List (String × List String))
    (only0 : Option (List String)) (enum : List String → List String)
    (henum : validEnum enum) (requested : List String)
    (hreq : pyDictGet fm s.type_ = some requested) :
    ∃ vis, sparseOnly s fm (pyIdFix only0) enum = some vis ∧ "id" ∈ vis ∧
      vis.toFinset =
        ((s.declared_fields.map Prod.fst).toFinset ∩ requested.toFinset ∩
          (match only0 with
           | none => (s.declared_fields.map Prod.fst).toFinset
           | some o => o.toFinset)) ∪ {"id"} := by
  unfold sparseOnly
  rw [hreq]
  cases honly : pyIdFix only0 with
  | none =>
    have h0 : only0 = none := by
      cases only0 with
      | none => rfl
      | some o =>
        exfalso
        unfold pyIdFix at honly
        try dsimp only at honly
        by_cases hid : "id" ∈ o
        · rw [if_pos hid] at honly; cases honly
        · rw [if_neg hid] at honly; cases honly
    subst h0
    dsimp only
    set t := enum ((s.declared_fields.map Prod.fst).filter fun k => requested.contains k)
      with ht
    refine ⟨if "id" ∈ t then t else t ++ ["id"], rfl, ?_, ?_⟩
    · by_cases hid : "id" ∈ t
      · rw [if_pos hid]; exact hid
      · rw [if_neg hid]; simp
    · have hmem : ∀ x, x ∈ t ↔
          x ∈ s.declared_fields.map Prod.fst ∧ x ∈ requested := by
        intro x
        rw [ht, (henum _).mem_iff]
        simp [List.mem_filter, contains_true_iff]
      ext x
      simp only [List.mem_toFinset, Finset.mem_union, Finset.mem_inter,
        Finset.mem_singleton]
      have hvis : (x ∈ (if "id" ∈ t then t else t ++ ["id"])) ↔ (x ∈ t ∨ x = "id") := by
        by_cases hid : "id" ∈ t
        · rw [if_pos hid]
          constructor
          · exact Or.inl
          · rintro (hx | rfl)
            · exact hx
            · exact hid
        · rw [if_neg hid]
          simp
      rw [hvis, hmem x]
      by_cases hx : x = "id"
      · simp [hx]
      · simp [hx]
        tauto
  | some o2 =>
    obtain ⟨o, ho⟩ : ∃ o, only0 = some o := by
      cases only0 with
      | none => cases honly
      | some o => exact ⟨o, rfl⟩
    subst ho
    try dsimp only
    have hne : o2.isEmpty = false := by
      have := pyIdFix_some_ne_nil o o2 honly
      cases o2 with
      | nil => exact absurd rfl this
      | cons a t => rfl
    rw [hne]
    simp only [Bool.false_eq_true, if_false]
    set t := enum (((s.declared_fields.map Prod.fst).filter fun k =>
      requested.contains k).filter fun k => o2.contains k) with ht
    refine ⟨if "id" ∈ t then t else t ++ ["id"], rfl, ?_, ?_⟩
    · by_cases hid : "id" ∈ t
      · rw [if_pos hid]; exact hid
      · rw [if_neg hid]; simp
    · have hmem : ∀ x, x ∈ t ↔
          ((x ∈ s.declared_fields.map Prod.fst ∧ x ∈ requested) ∧ x ∈ o2) := by
        intro x
        rw [ht, (henum _).mem_iff, List.mem_filter, List.mem_filter,
          contains_true_iff, contains_true_iff]
      have ho2 : ∀ x : String, x ∈ o2 ↔ x ∈ o ∨ x = "id" :=
        fun x => mem_pyIdFix_some o x o2 honly
      ext x
      simp only [List.mem_toFinset, Finset.mem_union, Finset.mem_inter,
        Finset.mem_singleton]
      have hvis : (x ∈ (if "id" ∈ t then t else t ++ ["id"])) ↔ (x ∈ t ∨ x = "id") := by
        by_cases hid : "id" ∈ t
        · rw [if_pos hid]
          constructor
          · exact Or.inl
          · rintro (hx | rfl)
            · exact hx
            · exact hid
        · rw [if_neg hid]
          simp
      rw [hvis, hmem x, ho2 x]
      by_cases hx : x = "id"
      · simp [hx]
      · simp [hx]

/-! ## The claims -/

/-- Claim C1 (code bug): the spec says each include path's segment count
is checked against `MAX_INCLUDE_DEPTH`, but the source iterates over the
*characters* of the raw `include` string before splitting on commas, so
for any configured depth of 2 or more the check can never fire:
`include=a.b.c` (3 segments) with `MAX_INCLUDE_DEPTH=2` is accepted and
returned as the single path `a.b.c`.  The spec's own examples do hold
(they only exercise depth 1, where "some character is a dot" coincides
with "some path has more than one segment"). -/
theorem c1_include_depth_check_bypassed :
    includeProp { MAX_INCLUDE_DEPTH := some 2 } [("include", "a.b.c")] = .ok ["a.b.c"]
    ∧ (pySplitChar "a.b.c" '.').length = 3
    ∧ includeProp { MAX_INCLUDE_DEPTH := some 1 } [("include", "author.publisher")]
        = .error (.invalidInclude
            "You can't use include through more than 1 relationships")
    ∧ includeProp { MAX_INCLUDE_DEPTH := some 2 } [("include", "author.publisher")]
        = .ok ["author.publisher"]
    ∧ includeProp cfgDefault [("include", "author.publisher")]
        = .ok ["author.publisher"] := by
  refine ⟨rfl, rfl, rfl, rfl, rfl⟩

/-- Claim C2, counterexample: the claim says parsed pagination values are
non-negative integers, but `int('-5')` succeeds in Python, so
`page[number]=-5` parses successfully and the stored value denotes the
negative integer −5. -/
theorem c2_negative_page_value_accepted :
    pagination cfgDefault [("page[number]", "-5")] = .ok [("number", PyVal.str "-5")]
    ∧ pyIntOfString? "-5" = some (-5)
    ∧ (-5 : Int) < 0 :=
  ⟨rfl, rfl, by decide⟩

/-- Claim C2 (amended): every successfully parsed pagination mapping has
keys only from {`number`, `size`} and raw-string values that parse as
(possibly signed, hence possibly negative) integers; an unknown sub-key
fails with `MalformedQuery` naming `page`, a non-integer string value
fails with `MalformedQuery` naming `page[<key>]`, and a comma-separated
value (stored as a list) raises an uncaught `TypeError` instead of
`MalformedQuery`. -/
theorem c2_pagination_keys_values_amended :
    (∀ (cfg : Config) (qs : List (String × String)) (res : List (String × PyVal)),
      pagination cfg qs = .ok res →
      ∀ kv ∈ res, (kv.1 = "number" ∨ kv.1 = "size") ∧
        ∃ s n, kv.2 = PyVal.str s ∧ pyIntOfString? s = some n)
    ∧ pagination cfgDefault [("page[foo]", "1")]
        = .error (.badRequest "foo is not a valid parameter of pagination" "page")
    ∧ pagination cfgDefault [("page[size]", "abc")]
        = .error (.badRequest "Parse error" "page[size]")
    ∧ pagination cfgDefault [("page[size]", "1,2")] = .error .typeError := by
  refine ⟨?_, rfl, rfl, rfl⟩
  intro cfg qs res h
  exact checkPageItems_ok res (pagination_ok cfg qs res h).2

/-- Witness for C2's amended theorem at the concrete request
`page[number]=25`. -/
theorem c2_pagination_keys_values_witness :
    ("number" = "number" ∨ "number" = "size") ∧
      ∃ s n, PyVal.str "25" = PyVal.str s ∧ pyIntOfString? s = some n := by
  have h := c2_pagination_keys_values_amended.1 cfgDefault [("page[number]", "25")]
    [("number", PyVal.str "25")] rfl ("number", PyVal.str "25") (by simp)
  simpa using h

/-- Claim C5, counterexample: the claim says a token without a leading
`-` keeps its field name unchanged, but the source uses
`sort_field.replace('-', '')`, which removes *every* hyphen:
`sort=a-b` yields field `ab`, not `a-b`. -/
theorem c5_hyphen_stripped_everywhere :
    sorting [("sort", "a-b")] = [{ field := "ab", order := "asc" }]
    ∧ ("ab" : String) ≠ "a-b" :=
  ⟨rfl, by decide⟩

/-- Claim C5 (amended): each comma-separated token parses in order to a
record whose order is `desc` exactly when the token starts with `-` and
whose field name is the token with *all* hyphens removed (not only a
leading one); an absent `sort` parameter yields the empty sequence, and
the spec's example `sort=-created_at,name` parses as stated. -/
theorem c5_sorting_amended :
    (∀ qs : List (String × String), pyDictGet qs "sort" = none → sorting qs = [])
    ∧ (∀ (qs : List (String × String)) (s : String),
        pyDictGet qs "sort" = some s → s ≠ "" →
        sorting qs = (pySplitChar s ',').map (fun tok =>
          { field := String.mk (tok.data.filter (fun c => c != '-')),
            order := if pyStartsWith tok "-" then "desc" else "asc" }))
    ∧ sorting [("sort", "-created_at,name")]
        = [{ field := "created_at", order := "desc" },
           { field := "name", order := "asc" }] := by
  refine ⟨?_, ?_, rfl⟩
  · intro qs h
    unfold sorting
    rw [h]
  · intro qs s h hne
    unfold sorting
    rw [h]
    dsimp only
    rw [if_pos hne]

/-- Witness for C5's amended theorem at the concrete request
`sort=-a,b`. -/
theorem c5_sorting_witness :
    sorting [("sort", "-a,b")]
      = [{ field := "a", order := "desc" }, { field := "b", order := "asc" }] := by
  have h := c5_sorting_amended.2.1 [("sort", "-a,b")] "-a,b" rfl (by decide)
  rw [h]
  rfl

/-- Claim C6, counterexample: the claim says the sub-key lies between
the first `[` and the first `]` *after it*, but the source takes
`key.index(']')` over the whole key: for the raw key `page]x[y]` the
first `]` precedes the `[`, the Python slice is empty, and the sub-key
is `""` instead of `y` — with no parse error raised. -/
theorem c6_subkey_uses_first_closing_bracket :
    _get_key_values "page" [("page]x[y]", "1")] = .ok [("", PyVal.str "1")]
    ∧ ("" : String) ≠ "y" :=
  ⟨rfl, by decide⟩

/-- Claim C6 (amended): for a raw key starting with the prefix, the
sub-key is the substring strictly between the first `[` and the first
`]` *of the whole key* (empty when the first `]` precedes the `[`);
comma values split into lists and lone values stay scalar strings; when
either bracket is missing the parse fails with `MalformedQuery` naming
the offending key itself. -/
theorem c6_bracket_extraction_amended :
    (∀ (name k v : String) (i j : Nat), pyStartsWith k name = true →
      k.data.findIdx? (fun c => c == '[') = some i →
      k.data.findIdx? (fun c => c == ']') = some j →
      _get_key_values name [(k, v)]
        = .ok [(String.mk ((k.data.take j).drop (i + 1)), pyRawValue v)])
    ∧ (∀ name k v : String, pyStartsWith k name = true →
        (k.data.findIdx? (fun c => c == '[') = none ∨
         k.data.findIdx? (fun c => c == ']') = none) →
        _get_key_values name [(k, v)] = .error (.badRequest "Parse error" k))
    ∧ _get_key_values "fields" [("fields[user]", "name,email")]
        = .ok [("user", PyVal.list ["name", "email"])]
    ∧ _get_key_values "fields" [("fields[user]", "name")]
        = .ok [("user", PyVal.str "name")] := by
  refine ⟨?_, ?_, rfl, rfl⟩
  · intro name k v i j hsw hi hj
    unfold _get_key_values gkvAux
    rw [if_pos hsw, hi, hj]
    rfl
  · intro name k v hsw hd
    cases hi : k.data.findIdx? (fun c => c == '[') with
    | none =>
      unfold _get_key_values gkvAux
      rw [if_pos hsw, hi]
    | some i =>
      cases hj : k.data.findIdx? (fun c => c == ']') with
      | none =>
        unfold _get_key_values gkvAux
        rw [if_pos hsw, hi, hj]
      | some j =>
        exfalso
        rcases hd with hd | hd
        · rw [hi] at hd
          cases hd
        · rw [hj] at hd
          cases hd

/-- Witness for C6's amended theorem at the concrete keys
`page[number]` (well-bracketed) and `pagex` (no brackets). -/
theorem c6_bracket_extraction_witness :
    _get_key_values "page" [("page[number]", "7")] = .ok [("number", PyVal.str "7")]
    ∧ _get_key_values "page" [("pagex", "7")]
        = .error (.badRequest "Parse error" "pagex") := by
  constructor
  · have h := c6_bracket_extraction_amended.1 "page" "page[number]" "7" 4 11
      rfl rfl rfl
    rw [h]
    rfl
  · have h := c6_bracket_extraction_amended.2.1 "page" "pagex" "7" rfl
      (Or.inl rfl)
    rw [h]

/-- Claim C7: the two configuration policies are enforced after sub-key
and value validation, and both violations are `MalformedQuery` errors
naming `page[size]`: with `ALLOW_DISABLE_PAGINATION=False`,
`page[size]=0` is rejected while with it `True` or unset it succeeds;
with `MAX_PAGE_SIZE=50`, `page[size]=51` is rejected and
`page[size]=50` succeeds. -/
theorem c7_pagination_policies :
    pagination { ALLOW_DISABLE_PAGINATION := some false } [("page[size]", "0")]
        = .error (.badRequest "You are not allowed to disable pagination" "page[size]")
    ∧ pagination { ALLOW_DISABLE_PAGINATION := some true } [("page[size]", "0")]
        = .ok [("size", PyVal.str "0")]
    ∧ pagination cfgDefault [("page[size]", "0")] = .ok [("size", PyVal.str "0")]
    ∧ pagination { MAX_PAGE_SIZE := some 50 } [("page[size]", "51")]
        = .error (.badRequest "Maximum page size is 50" "page[size]")
    ∧ pagination { MAX_PAGE_SIZE := some 50 } [("page[size]", "50")]
        = .ok [("size", PyVal.str "50")] := by
  refine ⟨rfl, rfl, rfl, rfl, rfl⟩

/-- Claim C10: bracket-key extraction selects every raw key that merely
*starts with* the prefix string, not only keys of the exact form
`prefix[...]`: any key `name ++ ext` is selected for prefix `name`, and
concretely `pages[foo]=1` is extracted (for prefix `page`) as sub-key
`foo`, which pagination sub-key validation then rejects with
`MalformedQuery` naming `page`. -/
theorem c10_prefix_selection :
    (∀ name ext : String, pyStartsWith (name ++ ext) name = true)
    ∧ _get_key_values "page" [("pages[foo]", "1")] = .ok [("foo", PyVal.str "1")]
    ∧ pagination cfgDefault [("pages[foo]", "1")]
        = .error (.badRequest "foo is not a valid parameter of pagination" "page") := by
  refine ⟨?_, rfl, rfl⟩
  intro name ext
  unfold pyStartsWith
  have hdata : (name ++ ext).data = name.data ++ ext.data := rfl
  rw [hdata]
  have key : ∀ l m : List Char, leadsBy l (l ++ m) = true := by
    intro l m
    induction l with
    | nil => rfl
    | cons a t ih => simp [leadsBy, ih]
  exact key name.data ext.data

/-- Claim C3, counterexample: the claim says visible-field ordering is
the declared schema's insertion order, but the source builds
`schema.only` from a Python set and then *appends* `id` when missing:
for the declared order `[id, name]` and the sparse request
`fields[demo]=name`, the projected visible tuple is `(name, id)` —
`id` last — under every admissible set-enumeration order (the set here
is a singleton), not the declared order `[id, name]`. -/
theorem c3_visible_order_not_declared_order :
    (compute_schema [] demoSchema {} [("fields[demo]", "name")] none id).1
        = .ok (.mk "demo" (some ["name", "id"]) [] [])
    ∧ demoSchema.declared_fields.map Prod.fst = ["id", "name"]
    ∧ (["name", "id"] : List String) ≠ ["id", "name"]
    ∧ validEnum id := by
  refine ⟨?_, rfl, by decide, fun l => List.Perm.refl l⟩
  rw [compute_schema_none]
  rfl

/-- Claim C3 (amended): projecting with `include=[]` (or none) and no
sparse-fieldset entry for the schema's type — and no caller-supplied
allow-list — yields a projection with `only = None`, whose visible
fields are exactly the full declared field set in declared order.  When
a sparse-fieldset directive applies, the visible *set* is correct (see
C8) but its order is a Python set-enumeration order with `id` appended
last when re-added, not the declared insertion order. -/
theorem c3_projection_idempotent (registry : List (String × SchemaDesc))
    (s : SchemaDesc) (kw : Kwargs) (qs : List (String × String))
    (enum : List String → List String) (fm : List (String × List String))
    (honly : kw.only = none) (hf : fieldsProp qs = .ok fm)
    (hnone : pyDictGet fm s.type_ = none) :
    (compute_schema registry s kw qs none enum).1 = .ok (.mk s.type_ none [] [])
    ∧ visibleFields s (.mk s.type_ none [] []) = s.declared_fields.map Prod.fst := by
  constructor
  · rw [compute_schema_none, hf]
    dsimp only
    rw [honly]
    unfold sparseOnly
    rw [hnone]
    rfl
  · rfl

/-- Witness for C3's amended theorem on the two-field demo schema with
an empty query string. -/
theorem c3_projection_idempotent_witness :
    (compute_schema [] demoSchema {} [] none id).1 = .ok (.mk "demo" none [] [])
    ∧ visibleFields demoSchema (.mk "demo" none [] []) = ["id", "name"] := by
  have h := c3_projection_idempotent [] demoSchema {} [] id [] rfl rfl rfl
  exact h

/-- Claim C4, counterexample: the claim says the caller-supplied default
options mapping holds the same entries after the call, but
`schema_kwargs = default_kwargs` merely aliases it and
`schema_kwargs['include_data'] = tuple()` writes through the alias: a
call that starts from an empty kwargs dict leaves it holding an
`include_data` entry. -/
theorem c4_default_kwargs_mutated :
    ((compute_schema [] demoSchema { only := none, include_data := none }
        [] none id).2).include_data = some []
    ∧ ({ only := none, include_data := none } : Kwargs).include_data = none := by
  constructor
  · rw [compute_schema_none]
    rfl
  · rfl

/-- Claim C4 (amended): `compute_schema` returns a newly constructed
projection and never touches the registered class descriptor (schema
instances deep-copy `_declared_fields`), but it *does* mutate the
caller-supplied `default_kwargs` dict through the
`schema_kwargs = default_kwargs` alias: after any successful call the
dict's `include_data` entry holds the tuple of first segments of the
include paths (the empty tuple when include is falsy) and its `only`
entry has been extended with `id` when it was present without it. -/
theorem c4_kwargs_mutation_amended (registry : List (String × SchemaDesc))
    (s : SchemaDesc) (kw : Kwargs) (qs : List (String × String))
    (inc : Option (List String)) (enum : List String → List String)
    (p : Projected) (hok : (compute_schema registry s kw qs inc enum).1 = .ok p) :
    (compute_schema registry s kw qs inc enum).2
      = { only := pyIdFix kw.only,
          include_data := some ((inc.getD []).map firstSegment) } := by
  cases inc with
  | none =>
    rw [compute_schema_none] at hok ⊢
    cases hfp : fieldsProp qs with
    | error e =>
      try rw [hfp] at hok
      dsimp only at hok
      cases hok
    | ok fm =>
      try rw [hfp]
      dsimp only
      rfl
  | some ps =>
    cases ps with
    | nil =>
      rw [compute_schema_some_nil] at hok ⊢
      cases hfp : fieldsProp qs with
      | error e =>
        try rw [hfp] at hok
        dsimp only at hok
        cases hok
      | ok fm =>
        try rw [hfp]
        dsimp only
        rfl
    | cons q rest =>
      rw [compute_schema_cons] at hok ⊢
      cases hL : includeLoop s (q :: rest) [] with
      | mk r idata =>
        try rw [hL] at hok
        try rw [hL]
        cases r with
        | error e =>
          dsimp only at hok
          cases hok
        | ok u =>
          have hidata : idata = (q :: rest).map firstSegment := by
            simpa using includeLoop_ok_idata s (q :: rest) [] u idata hL
          dsimp only at hok ⊢
          cases hfp : fieldsProp qs with
          | error e =>
            try rw [hfp] at hok
            dsimp only at hok
            cases hok
          | ok fm =>
            try rw [hfp] at hok
            try rw [hfp]
            dsimp only at hok ⊢
            cases hE : expandLoop registry s qs (q :: rest)
                (List.cons_ne_nil q rest) (q :: rest) [] enum with
            | error e =>
              try rw [hE] at hok
              dsimp only at hok
              cases hok
            | ok ex =>
              try rw [hE]
              dsimp only
              rw [hidata]
              rfl

/-- Witness for C4's amended theorem: a successful projection of the
article schema with `include=['author']` leaves the caller's kwargs
dict holding `include_data = ('author',)`. -/
theorem c4_kwargs_mutation_witness :
    (compute_schema demoRegistry articleSchema { only := none, include_data := none }
        [] (some ["author"]) id).2
      = { only := none, include_data := some ["author"] } := by
  have h := c4_kwargs_mutation_amended demoRegistry articleSchema
    { only := none, include_data := none } [] (some ["author"]) id
    (.mk "article" none ["author"] [("author", .mk "person" none [] [])]) ?hok
  · exact h
  case hok =>
    have hsub : compute_schema demoRegistry personSchema {} [] none id
        = (.ok (.mk "person" none [] []),
           { only := none, include_data := some [] }) := by
      rw [compute_schema_none]
      rfl
    rw [compute_schema_cons]
    rw [show includeLoop articleSchema ["author"] [] = (.ok (), ["author"]) from rfl]
    dsimp only
    rw [show fieldsProp ([] : List (String × String)) = .ok [] from rfl]
    dsimp only
    rw [expandLoop_cons]
    rw [show pyDictGet articleSchema.declared_fields (firstSegment "author")
      = some (demoRel "PersonSchema") from rfl]
    dsimp only
    rw [show pyDictGet demoRegistry (demoRel "PersonSchema").related
      = some personSchema from rfl]
    dsimp only
    rw [show orNone (relatedIncludesOf ["author"] (firstSegment "author"))
      = none from rfl]
    rw [hsub]
    dsimp only
    rw [expandLoop_nil]
    rfl

/-- Claim C8: when the directives carry a sparse-fieldset entry for the
schema's type, every successful projection has a visible-field set
equal to the declared field set, intersected with any caller-supplied
allow-list and with the requested set, with the identifier field `id`
unconditionally re-added — in particular `id` is always visible even
when the requested set omits it. -/
theorem c8_sparse_visible_set (registry : List (String × SchemaDesc))
    (s : SchemaDesc) (kw : Kwargs) (qs : List (String × String))
    (inc : Option (List String)) (enum : List String → List String)
    (henum : validEnum enum) (fm : List (String × List String))
    (requested : List String) (hf : fieldsProp qs = .ok fm)
    (hreq : pyDictGet fm s.type_ = some requested) (p : Projected)
    (hok : (compute_schema registry s kw qs inc enum).1 = .ok p) :
    ∃ vis, p.only = some vis ∧ "id" ∈ vis ∧
      vis.toFinset =
        ((s.declared_fields.map Prod.fst).toFinset ∩ requested.toFinset ∩
          (match kw.only with
           | none => (s.declared_fields.map Prod.fst).toFinset
           | some o => o.toFinset)) ∪ {"id"} := by
  have honly := compute_schema_ok_only registry s kw qs inc enum fm p hf hok
  obtain ⟨vis, h1, h2, h3⟩ := sparseOnly_spec s fm kw.only enum henum requested hreq
  exact ⟨vis, by rw [honly, h1], h2, h3⟩

/-- Witness for C8 on the demo schema with `fields[demo]=name`: the
visible set is `{name, id}` and contains `id` although the request
omitted it. -/
theorem c8_sparse_visible_set_witness :
    ∃ vis, (Projected.mk "demo" (some ["name", "id"]) [] []).only = some vis ∧
      "id" ∈ vis ∧
      vis.toFinset =
        ((demoSchema.declared_fields.map Prod.fst).toFinset ∩
          (["name"] : List String).toFinset ∩
          (demoSchema.declared_fields.map Prod.fst).toFinset) ∪ {"id"} := by
  have h := c8_sparse_visible_set [] demoSchema {} [("fields[demo]", "name")] none id
    (fun l => List.Perm.refl l) [("demo", ["name"])] ["name"] rfl rfl
    (.mk "demo" (some ["name", "id"]) [] [])
    (by rw [compute_schema_none]; rfl)
  exact h

/-- Claim C9: an include path whose first segment names a field absent
from the schema's declared fields, or a declared field that is not a
relationship, makes `compute_schema` fail with `InvalidInclude`; it is
never silently ignored. -/
theorem c9_invalid_include_fails (registry : List (String × SchemaDesc))
    (s : SchemaDesc) (kw : Kwargs) (qs : List (String × String))
    (ps : List String) (enum : List String → List String) (p : String)
    (hp : p ∈ ps) (hbad : badPathB s p = true) :
    isInvalidIncludeB (compute_schema registry s kw qs (some ps) enum).1 = true := by
  obtain ⟨q, rest, rfl⟩ : ∃ q rest, ps = q :: rest := by
    cases ps with
    | nil => simp at hp
    | cons q rest => exact ⟨q, rest, rfl⟩
  rw [compute_schema_cons]
  obtain ⟨m, hm⟩ := includeLoop_bad s (q :: rest) [] p hp hbad
  cases hL : includeLoop s (q :: rest) [] with
  | mk r idata =>
    try rw [hL] at hm
    dsimp only at hm
    subst hm
    rfl

/-- Witness for C9: including the non-relationship attribute `title`
of the article schema fails with `InvalidInclude`. -/
theorem c9_invalid_include_witness :
    isInvalidIncludeB (compute_schema demoRegistry articleSchema {} []
      (some ["title"]) id).1 = true :=
  c9_invalid_include_fails demoRegistry articleSchema {} [] ["title"] id "title"
    (by simp) rfl

end FlaskRestJsonapi
